import Mathlib

/-!
Verification of the robowflex asynchronous job-pool core and the Scene wrapper.

The repository ships the `Scene` class declaration (scene.h) and two example
scripts (ur5_pool.cpp, ur5_io.cpp) that exercise `PoolPlanner` / `Job` and the
Scene IO interface.  The implementations of `PoolPlanner`, `Job` and the
`Scene` member functions are not part of the shipped sources, so they are
modelled here from the specification and the declaration doc comments, as a
shallow embedding: the pool is a state (`Sys`) acted on by explicit commands
(`Cmd`, interpreted by `exec`), payload types opaque to the pool (environment
documents, requests, solve results, faults) are represented by `Nat`, and the
pluggable solve function is a parameter `solve : Nat → Nat → SolveRes`.
Blocking calls (`wait`/`get`) are modelled as observations that are undefined
(`none`) until the job is terminal.
-/

namespace Robowflex

/-- Modelled from the spec: the per-job state,
`Queued → {Running, Canceled}`, `Running → {Completed, Failed}`. -/
inductive JobState
  | queued
  | running
  | canceled
  | completed
  | failed
deriving DecidableEq, Repr

/-- Modelled from the spec: the outcome of one invocation of the external
solve function — either a result payload, or a raised fault (exception)
that the worker boundary must catch. -/
inductive SolveRes
  | ok (r : Nat)
  | fault (e : Nat)
deriving DecidableEq, Repr

/-- Modelled from the spec: a Job — snapshot of the environment document
captured at submission, request payload, state, cancellation flag (separate
from the state), and a write-once result slot. -/
structure Job where
  snapshot : Nat
  request : Nat
  state : JobState
  cancelFlag : Bool
  result : Option SolveRes
deriving DecidableEq, Repr

/-- Modelled from the spec: the pool-visible system state — the client's live
environment document, the jobs (a job's id/handle is its submission sequence
number, i.e. its index), and the FIFO queue of job ids. -/
structure Sys where
  liveDoc : Nat
  jobs : List Job
  queue : List Nat
deriving DecidableEq, Repr

/-- Modelled from the spec: `PoolPlanner::submit` copies the environment
document into a snapshot, creates a Job in state Queued, enqueues it, and
returns the handle (the fresh sequence number) immediately. -/
def submit (s : Sys) (req : Nat) : Sys × Nat :=
  let id := s.jobs.length
  ({ s with
      jobs := s.jobs ++ [{ snapshot := s.liveDoc, request := req, state := .queued,
                           cancelFlag := false, result := none }],
      queue := s.queue ++ [id] },
   id)

/-- Modelled from the spec: `Job::cancel` sets the cancellation flag; if the
job is still Queued it transitions to Canceled immediately (its queue slot
becomes a no-op on dequeue); if Running or terminal, only the flag is set. -/
def cancelJob (j : Job) : Job :=
  if j.state = .queued then { j with cancelFlag := true, state := .canceled }
  else { j with cancelFlag := true }

/-- `cancel` lifted to the system: canceling an unknown handle is a no-op. -/
def cancel (s : Sys) (id : Nat) : Sys :=
  match s.jobs[id]? with
  | some j => { s with jobs := s.jobs.set id (cancelJob j) }
  | none => s

/-- Modelled from the spec: scan the queue in submission order for the first
entry whose job is still Queued, skipping (and discarding) entries canceled
while waiting; returns the id, its job, and the remaining queue suffix. -/
def findNext (jobs : List Job) : List Nat → Option (Nat × Job × List Nat)
  | [] => none
  | id :: rest =>
    match jobs[id]? with
    | some j => if j.state = .queued then some (id, j, rest) else findNext jobs rest
    | none => findNext jobs rest

/-- Modelled from the spec: `dequeueNext` removes the first still-Queued entry
and transitions it to Running atomically with removal; when no runnable job
is available the worker blocks (modelled: state unchanged, `none`). -/
def dequeueNext (s : Sys) : Sys × Option Nat :=
  match findNext s.jobs s.queue with
  | some (id, j, rest) =>
    ({ s with jobs := s.jobs.set id { j with state := .running }, queue := rest }, some id)
  | none => (s, none)

/-- The terminal job state reached from a solve outcome: Completed on a
result, Failed on a caught fault. -/
def runOutcome : SolveRes → JobState
  | .ok _ => .completed
  | .fault _ => .failed

/-- Observable events of an execution: the external solve function was
invoked for a given job. -/
inductive Event
  | solveInvoked (id : Nat)
deriving DecidableEq, Repr

/-- Modelled from the spec: the worker that dequeued a job invokes the solve
function on the job's snapshot and request, catches any fault, writes the
write-once result slot, and transitions the job to Completed or Failed.
Acting on a job that is not Running is a no-op (a worker only finishes the
job it dequeued). -/
def finishJob (solve : Nat → Nat → SolveRes) (s : Sys) (id : Nat) : Sys × List Event :=
  match s.jobs[id]? with
  | some j =>
    if j.state = .running then
      let res := solve j.snapshot j.request
      ({ s with jobs := s.jobs.set id { j with state := runOutcome res, result := some res } },
       [Event.solveInvoked id])
    else (s, [])
  | none => (s, [])

/-- The result of `Job::get` once it unblocks: either the canceled-access
condition, or the stored solve outcome. -/
inductive GetRes
  | canceledAccess
  | value (res : SolveRes)
deriving DecidableEq, Repr

/-- Whether a job state is terminal (Canceled, Completed or Failed). -/
def isTerminal : JobState → Bool
  | .canceled => true
  | .completed => true
  | .failed => true
  | _ => false

/-- Modelled from the spec: `Job::get` blocks until the job is terminal
(modelled: `none` while non-terminal), then fails with the canceled-access
condition on a Canceled job and otherwise returns the stored result. -/
def getJob (s : Sys) (id : Nat) : Option GetRes :=
  match s.jobs[id]? with
  | some j =>
    match j.state with
    | .canceled => some .canceledAccess
    | .completed => j.result.map .value
    | .failed => j.result.map .value
    | _ => none
  | none => none

/-- Modelled from the spec: `Job::wait` blocks until the job is terminal;
modelled as the predicate the blocked thread is released on. -/
def waitDone (s : Sys) (id : Nat) : Bool :=
  match s.jobs[id]? with
  | some j => isTerminal j.state
  | none => false

/-- The commands that mutate the pool state: client-side submit / live-document
edit / cancel, and the two halves of a worker iteration (atomic dequeue-to-
Running, and finishing the dequeued job).  `wait` and `get` are pure
observations and mutate nothing. -/
inductive Cmd
  | submit (req : Nat)
  | setDoc (d : Nat)
  | cancel (id : Nat)
  | dequeue
  | finish (id : Nat)
deriving DecidableEq, Repr

/-- One command step, returning the new state and the solve-invocation events
it emitted. -/
def exec (solve : Nat → Nat → SolveRes) (s : Sys) : Cmd → Sys × List Event
  | .submit req => ((submit s req).1, [])
  | .setDoc d => ({ s with liveDoc := d }, [])
  | .cancel id => (cancel s id, [])
  | .dequeue => ((dequeueNext s).1, [])
  | .finish id => finishJob solve s id

/-- A whole execution: a list of commands run in order, accumulating events. -/
def execList (solve : Nat → Nat → SolveRes) (s : Sys) : List Cmd → Sys × List Event
  | [] => (s, [])
  | c :: cs =>
    let p := exec solve s c
    let q := execList solve p.1 cs
    (q.1, p.2 ++ q.2)

/-- Fuel-bounded worker loop: repeatedly dequeue the next runnable job and
finish it, until no runnable job remains. -/
def drain (solve : Nat → Nat → SolveRes) : Nat → Sys → Sys
  | 0, s => s
  | fuel + 1, s =>
    match dequeueNext s with
    | (s1, some id) => drain solve fuel (finishJob solve s1 id).1
    | (_, none) => s

/-- Run the workers until every currently-queued runnable job has been
executed (the queue length bounds the number of iterations needed). -/
def drainAll (solve : Nat → Nat → SolveRes) (s : Sys) : Sys :=
  drain solve s.queue.length s

/-- Modelled from the spec: `PoolPlanner::plan` is the blocking convenience
wrapper "equivalent to submit(...).get()" — it submits, lets the workers
drain the queue (which completes the submitted job), and returns the result
of `get` on the handle. -/
def plan (solve : Nat → Nat → SolveRes) (s : Sys) (req : Nat) : Option GetRes × Sys :=
  let p := submit s req
  let s2 := drainAll solve p.1
  (getJob s2 p.2, s2)

/-- The state-and-result observation of a job: everything `get` depends on. -/
def obsAt (s : Sys) (id : Nat) : Option (JobState × Option SolveRes) :=
  (s.jobs[id]?).map (fun j => (j.state, j.result))

/-- `getJob` as a function of the state-and-result observation alone. -/
def getOfObs : Option (JobState × Option SolveRes) → Option GetRes
  | some (.canceled, _) => some .canceledAccess
  | some (.completed, r) => r.map .value
  | some (.failed, r) => r.map .value
  | some (.queued, _) => none
  | some (.running, _) => none
  | none => none

/-- Whether the job behind an id is currently Queued. -/
def queuedIn (s : Sys) (id : Nat) : Bool :=
  match s.jobs[id]? with
  | some j => j.state == .queued
  | none => false

/-- The sequence of job ids handed to workers by successive dequeues
(fuel-bounded): the order in which jobs are started. -/
def drainOrder (s : Sys) : Nat → List Nat
  | 0 => []
  | fuel + 1 =>
    match dequeueNext s with
    | (s1, some id) => id :: drainOrder s1 fuel
    | (_, none) => []

/-- The monotone transition relation of the spec: a job state may stay put,
go `Queued → Running`, `Queued → Canceled`, `Running → Completed`, or
`Running → Failed`; nothing else. -/
def allowedStep (a b : JobState) : Prop :=
  b = a ∨ (a = .queued ∧ (b = .running ∨ b = .canceled)) ∨
    (a = .running ∧ (b = .completed ∨ b = .failed))

instance (a b : JobState) : Decidable (allowedStep a b) := by
  unfold allowedStep
  infer_instance

/-! ### The Scene wrapper

`Scene` implementations are not part of the shipped sources either (only the
declarations and doc comments in scene.h are); the model below follows those
doc comments.  Geometry payloads are opaque (`Nat`); a planning-scene message
captures the world objects and the attached bodies. -/

/-- Modelled from the spec: an end-effector of the robot — the link objects
get attached to, and the set of links belonging to the end-effector. -/
structure EndEffector where
  tipLink : String
  links : List String
deriving DecidableEq, Repr

/-- Modelled from the spec: the robot as the Scene sees it — its list of
end-effectors. -/
structure RobotModel where
  endEffectors : List EndEffector
deriving DecidableEq, Repr

/-- Modelled from the spec: the planning-scene message describing the current
scene: named world collision objects (with opaque geometry/pose payload) and
attached bodies (object name, link, allowed touch links). -/
structure SceneMsg where
  world : List (String × Nat)
  attached : List (String × String × List String)
deriving DecidableEq, Repr

/-- Modelled from the spec: the Scene wrapper around the planning scene. -/
structure Scene where
  robot : RobotModel
  world : List (String × Nat)
  attached : List (String × String × List String)
deriving DecidableEq, Repr

/-- Modelled from the spec: `Scene::getMessage` — the message that describes
the current planning scene. -/
def Scene.getMessage (s : Scene) : SceneMsg :=
  { world := s.world, attached := s.attached }

/-- Whether a named collision object is present in the scene's world. -/
def Scene.hasObject (s : Scene) (name : String) : Bool :=
  s.world.any (fun p => p.1 == name)

/-- Modelled from the spec: `Scene::attachObject(name, ee_link, touch_links)`
attaches the named world object to the given link with the given allowed
touch links; returns false (no exception) when the object is absent. -/
def Scene.attachObject (s : Scene) (name eeLink : String)
    (touchLinks : List String) : Bool × Scene :=
  if s.hasObject name then
    (true, { s with world := s.world.filter (fun p => p.1 != name),
                    attached := s.attached ++ [(name, eeLink, touchLinks)] })
  else (false, s)

/-- Modelled from the spec: the single-argument `Scene::attachObject(name)`
attaches the named object to the default end-effector; it "only works if
there is one end-effector in the system" and "uses all end-effector links as
allowed touch links"; in every other case it returns false. -/
def Scene.attachObjectDefault (s : Scene) (name : String) : Bool × Scene :=
  match s.robot.endEffectors with
  | [ee] => s.attachObject name ee.tipLink ee.links
  | _ => (false, s)

/-- A store of serialized scene files: file name to stored scene message. -/
abbrev FileStore := List (String × SceneMsg)

/-- Modelled from the spec: `Scene::toYAMLFile` serializes the current
planning scene (its message) to the named file; true on success. -/
def Scene.toYAMLFile (s : Scene) (fs : FileStore) (file : String) :
    Bool × FileStore :=
  (true, (file, s.getMessage) :: fs)

/-- Modelled from the spec: `Scene::fromYAMLFile` loads a planning scene from
the named file into this scene; returns false (no exception) when the file
is not available. -/
def Scene.fromYAMLFile (s : Scene) (fs : FileStore) (file : String) :
    Bool × Scene :=
  match List.lookup file fs with
  | some m => (true, { s with world := m.world, attached := m.attached })
  | none => (false, s)

/-! ### Concrete values used by the witnesses -/

/-- A concrete solve function: succeeds with the sum of snapshot and request. -/
def exSolve : Nat → Nat → SolveRes := fun a b => .ok (a + b)

/-- A concrete solve function that always raises a fault. -/
def exFaultSolve : Nat → Nat → SolveRes := fun _ _ => .fault 9

/-- A concrete queued job. -/
def exJob : Job :=
  { snapshot := 5, request := 7, state := .queued, cancelFlag := false, result := none }

/-- A concrete running job. -/
def exRunJob : Job :=
  { snapshot := 5, request := 7, state := .running, cancelFlag := false, result := none }

/-- A concrete completed job. -/
def exDoneJob : Job :=
  { snapshot := 5, request := 7, state := .completed, cancelFlag := false,
    result := some (.ok 12) }

/-- A pool with one queued job. -/
def exSys : Sys := { liveDoc := 5, jobs := [exJob], queue := [0] }

/-- A pool with one running job (already dequeued) and one queued job. -/
def exSysRun : Sys := { liveDoc := 5, jobs := [exRunJob, exJob], queue := [1] }

/-- A pool with one completed job. -/
def exSysDone : Sys := { liveDoc := 5, jobs := [exDoneJob], queue := [] }

/-- A pool with three jobs in the queue, the middle one canceled. -/
def exSysThree : Sys :=
  { liveDoc := 5,
    jobs := [exJob, { exJob with state := .canceled, cancelFlag := true }, exJob],
    queue := [0, 1, 2] }

/-- A scene whose robot has exactly one end-effector and one world object. -/
def exScene : Scene :=
  { robot := { endEffectors := [{ tipLink := "ee_link", links := ["ee_link", "tool0"] }] },
    world := [("ball", 3)],
    attached := [] }

/-- A scene whose robot has two end-effectors. -/
def exSceneTwo : Scene :=
  { robot := { endEffectors := [{ tipLink := "l", links := ["l"] },
                                { tipLink := "r", links := ["r"] }] },
    world := [("ball", 3)],
    attached := [] }

/-! ### Basic lemmas -/

lemma getJob_eq_getOfObs (s : Sys) (id : Nat) : getJob s id = getOfObs (obsAt s id) := by
  unfold getJob obsAt
  cases s.jobs[id]? with
  | none => rfl
  | some j => cases hs : j.state <;> simp [getOfObs, hs]

lemma getElem?_set_self_of_lt {α : Type} (l : List α) (i : Nat) (a : α)
    (h : i < l.length) : (l.set i a)[i]? = some a := by
  simp [List.getElem?_set_self', h]

lemma submit_jobs_new (s : Sys) (req : Nat) :
    (submit s req).1.jobs[s.jobs.length]? =
      some { snapshot := s.liveDoc, request := req, state := .queued,
             cancelFlag := false, result := none } := by
  simp [submit]

lemma submit_jobs_old (s : Sys) (req : Nat) (id : Nat) (h : id < s.jobs.length) :
    (submit s req).1.jobs[id]? = s.jobs[id]? := by
  simp [submit, List.getElem?_append, h]

/-! ### Shape lemmas for the operations -/

lemma cancel_shape_none (s : Sys) (k : Nat) (h : s.jobs[k]? = none) : cancel s k = s := by
  simp [cancel, h]

lemma cancel_shape_some (s : Sys) (k : Nat) (jk : Job) (h : s.jobs[k]? = some jk) :
    cancel s k = { s with jobs := s.jobs.set k (cancelJob jk) } := by
  simp [cancel, h]

lemma dequeueNext_shape_none (s : Sys) (h : findNext s.jobs s.queue = none) :
    dequeueNext s = (s, none) := by
  simp [dequeueNext, h]

lemma dequeueNext_shape_some (s : Sys) (k : Nat) (jk : Job) (rest : List Nat)
    (h : findNext s.jobs s.queue = some (k, jk, rest)) :
    dequeueNext s =
      ({ s with jobs := s.jobs.set k { jk with state := .running }, queue := rest },
       some k) := by
  simp [dequeueNext, h]

lemma finishJob_shape_none (solve : Nat → Nat → SolveRes) (s : Sys) (k : Nat)
    (h : s.jobs[k]? = none) : finishJob solve s k = (s, []) := by
  simp [finishJob, h]

lemma finishJob_shape_notRunning (solve : Nat → Nat → SolveRes) (s : Sys) (k : Nat)
    (jk : Job) (h : s.jobs[k]? = some jk) (hr : jk.state ≠ .running) :
    finishJob solve s k = (s, []) := by
  simp [finishJob, h, hr]

lemma finishJob_shape_running (solve : Nat → Nat → SolveRes) (s : Sys) (k : Nat)
    (jk : Job) (h : s.jobs[k]? = some jk) (hr : jk.state = .running) :
    finishJob solve s k =
      ({ s with
          jobs := s.jobs.set k
            { jk with state := runOutcome (solve jk.snapshot jk.request),
                      result := some (solve jk.snapshot jk.request) } },
       [Event.solveInvoked k]) := by
  simp [finishJob, h, hr]

lemma findNext_cons (jobs : List Job) (a : Nat) (q : List Nat) :
    findNext jobs (a :: q) =
      match jobs[a]? with
      | some j => if j.state = .queued then some (a, j, q) else findNext jobs q
      | none => findNext jobs q := rfl

lemma findNext_some_spec (jobs : List Job) :
    ∀ q id j rest, findNext jobs q = some (id, j, rest) →
      jobs[id]? = some j ∧ j.state = .queued ∧
      ∃ pre, q = pre ++ id :: rest ∧
        ∀ x ∈ pre, ∀ jx, jobs[x]? = some jx → jx.state ≠ .queued := by
  intro q
  induction q with
  | nil => intro id j rest h; simp [findNext] at h
  | cons a q ih =>
    intro id j rest h
    rw [findNext_cons] at h
    cases hj : jobs[a]? with
    | some ja =>
      simp only [hj] at h
      by_cases hq : ja.state = .queued
      · rw [if_pos hq] at h
        obtain ⟨rfl, rfl, rfl⟩ : a = id ∧ ja = j ∧ q = rest := by
          simpa using h
        exact ⟨hj, hq, [], by simp, by simp⟩
      · rw [if_neg hq] at h
        obtain ⟨hj2, hq2, pre, hpre, hall⟩ := ih id j rest h
        refine ⟨hj2, hq2, a :: pre, by simp [hpre], ?_⟩
        intro x hx jx hjx
        rcases List.mem_cons.mp hx with rfl | hx
        · rw [hj] at hjx
          cases hjx
          exact hq
        · exact hall x hx jx hjx
    | none =>
      simp only [hj] at h
      obtain ⟨hj2, hq2, pre, hpre, hall⟩ := ih id j rest h
      refine ⟨hj2, hq2, a :: pre, by simp [hpre], ?_⟩
      intro x hx jx hjx
      rcases List.mem_cons.mp hx with rfl | hx
      · rw [hj] at hjx
        cases hjx
      · exact hall x hx jx hjx

lemma findNext_none_spec (jobs : List Job) :
    ∀ q, findNext jobs q = none →
      ∀ x ∈ q, ∀ jx, jobs[x]? = some jx → jx.state ≠ .queued := by
  intro q
  induction q with
  | nil => intro _ x hx; cases hx
  | cons a q ih =>
    intro h x hx jx hjx
    rw [findNext_cons] at h
    cases hj : jobs[a]? with
    | some ja =>
      simp only [hj] at h
      by_cases hq : ja.state = .queued
      · rw [if_pos hq] at h; cases h
      · rw [if_neg hq] at h
        rcases List.mem_cons.mp hx with rfl | hx
        · rw [hj] at hjx; cases hjx; exact hq
        · exact ih h x hx jx hjx
    | none =>
      simp only [hj] at h
      rcases List.mem_cons.mp hx with rfl | hx
      · rw [hj] at hjx; cases hjx
      · exact ih h x hx jx hjx

lemma allowedStep_terminal {a b : JobState} (ht : isTerminal a = true)
    (h : allowedStep a b) : b = a := by
  rcases h with h | ⟨h1, _⟩ | ⟨h1, _⟩
  · exact h
  · rw [h1] at ht; simp [isTerminal] at ht
  · rw [h1] at ht; simp [isTerminal] at ht

lemma allowedStep_refl (a : JobState) : allowedStep a a := Or.inl rfl

/-- Master per-command lemma: every command keeps each existing job present,
never rewrites its snapshot or request, moves its state only along the
allowed transition relation, never changes the result slot without changing
the state, and invokes the solve function for a job only while that job is
Running. -/
lemma exec_job_evolution (solve : Nat → Nat → SolveRes) (s : Sys) (c : Cmd)
    (id : Nat) (j : Job) (hj : s.jobs[id]? = some j) :
    ∃ j2, (exec solve s c).1.jobs[id]? = some j2 ∧
      j2.snapshot = j.snapshot ∧ j2.request = j.request ∧
      allowedStep j.state j2.state ∧
      (j2.state = j.state → j2.result = j.result) ∧
      (Event.solveInvoked id ∈ (exec solve s c).2 → j.state = .running) := by
  have hlt : id < s.jobs.length := (List.getElem?_eq_some.mp hj).1
  cases c with
  | submit req =>
    refine ⟨j, ?_, rfl, rfl, allowedStep_refl _, fun _ => rfl, by simp [exec]⟩
    show (submit s req).1.jobs[id]? = some j
    rw [submit_jobs_old s req id hlt]
    exact hj
  | setDoc d =>
    exact ⟨j, hj, rfl, rfl, allowedStep_refl _, fun _ => rfl, by simp [exec]⟩
  | cancel k =>
    show ∃ j2, (cancel s k).jobs[id]? = some j2 ∧ _
    by_cases hk : k = id
    · subst hk
      rw [cancel_shape_some s k j hj]
      refine ⟨cancelJob j, getElem?_set_self_of_lt _ _ _ hlt, ?_, ?_, ?_, ?_, by simp [exec]⟩
      · unfold cancelJob; split <;> rfl
      · unfold cancelJob; split <;> rfl
      · unfold cancelJob
        split
        · next hq => exact Or.inr (Or.inl ⟨hq, Or.inr rfl⟩)
        · exact allowedStep_refl _
      · intro _; unfold cancelJob; split <;> rfl
    · refine ⟨j, ?_, rfl, rfl, allowedStep_refl _, fun _ => rfl, by simp [exec]⟩
      cases hkj : s.jobs[k]? with
      | none => rw [cancel_shape_none s k hkj]; exact hj
      | some jk =>
        rw [cancel_shape_some s k jk hkj]
        show (s.jobs.set k (cancelJob jk))[id]? = some j
        rw [List.getElem?_set_ne hk]
        exact hj
  | dequeue =>
    cases hfn : findNext s.jobs s.queue with
    | none =>
      refine ⟨j, ?_, rfl, rfl, allowedStep_refl _, fun _ => rfl, by simp [exec]⟩
      show (dequeueNext s).1.jobs[id]? = some j
      rw [dequeueNext_shape_none s hfn]
      exact hj
    | some t =>
      obtain ⟨k, jk, rest⟩ := t
      obtain ⟨hkj, hkq, _⟩ := findNext_some_spec s.jobs s.queue k jk rest hfn
      by_cases hk : k = id
      · subst hk
        have hjk : jk = j := Option.some.inj (hkj.symm.trans hj)
        subst hjk
        refine ⟨{ jk with state := .running }, ?_, rfl, rfl, ?_, ?_, by simp [exec]⟩
        · show (dequeueNext s).1.jobs[k]? = _
          rw [dequeueNext_shape_some s k jk rest hfn]
          exact getElem?_set_self_of_lt _ _ _ hlt
        · exact Or.inr (Or.inl ⟨hkq, Or.inl rfl⟩)
        · intro hst
          rw [hkq] at hst
      · refine ⟨j, ?_, rfl, rfl, allowedStep_refl _, fun _ => rfl, by simp [exec]⟩
        show (dequeueNext s).1.jobs[id]? = some j
        rw [dequeueNext_shape_some s k jk rest hfn]
        show (s.jobs.set k _)[id]? = some j
        rw [List.getElem?_set_ne hk]
        exact hj
  | finish k =>
    simp only [exec]
    cases hkj : s.jobs[k]? with
    | none =>
      rw [finishJob_shape_none solve s k hkj]
      exact ⟨j, hj, rfl, rfl, allowedStep_refl _, fun _ => rfl, by simp⟩
    | some jk =>
      by_cases hrun : jk.state = .running
      · rw [finishJob_shape_running solve s k jk hkj hrun]
        by_cases hk : k = id
        · subst hk
          have hjk : jk = j := Option.some.inj (hkj.symm.trans hj)
          subst hjk
          refine ⟨_, getElem?_set_self_of_lt _ _ _ hlt, rfl, rfl, ?_, ?_, fun _ => hrun⟩
          · rw [hrun]
            cases hres : solve jk.snapshot jk.request with
            | ok r => exact Or.inr (Or.inr ⟨rfl, Or.inl (by simp [hres, runOutcome])⟩)
            | fault e => exact Or.inr (Or.inr ⟨rfl, Or.inr (by simp [hres, runOutcome])⟩)
          · intro hst
            rw [hrun] at hst
            cases hres : solve jk.snapshot jk.request <;> rw [hres] at hst <;>
              simp [runOutcome] at hst
        · refine ⟨j, ?_, rfl, rfl, allowedStep_refl _, fun _ => rfl, ?_⟩
          · show (s.jobs.set k _)[id]? = some j
            rw [List.getElem?_set_ne hk]
            exact hj
          · intro hmem
            simp at hmem
            exact absurd hmem.symm hk
      · rw [finishJob_shape_notRunning solve s k jk hkj hrun]
        exact ⟨j, hj, rfl, rfl, allowedStep_refl _, fun _ => rfl, by simp⟩

lemma obsAt_eq (s : Sys) (id : Nat) (j : Job) (h : s.jobs[id]? = some j) :
    obsAt s id = some (j.state, j.result) := by
  simp [obsAt, h]

lemma getOfObs_terminal (res : SolveRes) :
    getOfObs (some (runOutcome res, some res)) = some (.value res) := by
  cases res <;> rfl

lemma isTerminal_runOutcome (res : SolveRes) : isTerminal (runOutcome res) = true := by
  cases res <;> rfl

/-- Master lemma lifted to whole executions: over any command sequence a job
keeps its snapshot and request, and a job that is terminal stays in its
state, keeps its result, and is never handed to the solve function. -/
lemma execList_job_evolution (solve : Nat → Nat → SolveRes) :
    ∀ (cs : List Cmd) (s : Sys) (id : Nat) (j : Job), s.jobs[id]? = some j →
      ∃ j2, (execList solve s cs).1.jobs[id]? = some j2 ∧
        j2.snapshot = j.snapshot ∧ j2.request = j.request ∧
        (isTerminal j.state = true →
          j2.state = j.state ∧ j2.result = j.result ∧
          Event.solveInvoked id ∉ (execList solve s cs).2) := by
  intro cs
  induction cs with
  | nil =>
    intro s id j hj
    exact ⟨j, hj, rfl, rfl, fun _ => ⟨rfl, rfl, by simp [execList]⟩⟩
  | cons c cs ih =>
    intro s id j hj
    obtain ⟨j1, hj1, hsnap1, hreq1, hall1, hres1, hev1⟩ := exec_job_evolution solve s c id j hj
    obtain ⟨j2, hj2, hsnap2, hreq2, hterm2⟩ := ih (exec solve s c).1 id j1 hj1
    refine ⟨j2, ?_, hsnap2.trans hsnap1, hreq2.trans hreq1, ?_⟩
    · show (execList solve s (c :: cs)).1.jobs[id]? = some j2
      simp only [execList]
      exact hj2
    · intro hterm
      have hstate1 : j1.state = j.state := allowedStep_terminal hterm hall1
      have hres : j1.result = j.result := hres1 hstate1
      have hterm1 : isTerminal j1.state = true := by rw [hstate1]; exact hterm
      obtain ⟨hs2, hr2, hev2⟩ := hterm2 hterm1
      refine ⟨hs2.trans hstate1, hr2.trans hres, ?_⟩
      simp only [execList, List.mem_append]
      rintro (hin | hin)
      · have hrn := hev1 hin
        rw [hrn] at hterm
        simp [isTerminal] at hterm
      · exact hev2 hin

/-- Fuel-bounded worker runs preserve a terminal job's state and result. -/
lemma drain_preserves_job (solve : Nat → Nat → SolveRes) :
    ∀ (fuel : Nat) (s : Sys) (id : Nat) (j : Job), s.jobs[id]? = some j →
      isTerminal j.state = true →
      ∃ j2, (drain solve fuel s).jobs[id]? = some j2 ∧
        j2.state = j.state ∧ j2.result = j.result := by
  intro fuel
  induction fuel with
  | zero =>
    intro s id j hj _
    exact ⟨j, hj, rfl, rfl⟩
  | succ fuel ih =>
    intro s id j hj ht
    cases hdq : dequeueNext s with
    | mk s1 o =>
      cases o with
      | none =>
        have hstep : drain solve (fuel + 1) s = s := by
          simp [drain, hdq]
        rw [hstep]
        exact ⟨j, hj, rfl, rfl⟩
      | some k =>
        have hstep : drain solve (fuel + 1) s = drain solve fuel (finishJob solve s1 k).1 := by
          simp [drain, hdq]
        obtain ⟨j1, hj1, _, _, hall1, hres1, _⟩ := exec_job_evolution solve s .dequeue id j hj
        have hexec1 : (exec solve s Cmd.dequeue).1 = s1 := by
          simp [exec, hdq]
        rw [hexec1] at hj1
        have hst1 : j1.state = j.state := allowedStep_terminal ht hall1
        have hr1 : j1.result = j.result := hres1 hst1
        have hterm1 : isTerminal j1.state = true := by rw [hst1]; exact ht
        obtain ⟨j2, hj2, _, _, hall2, hres2, _⟩ :=
          exec_job_evolution solve s1 (.finish k) id j1 hj1
        have hj2' : (finishJob solve s1 k).1.jobs[id]? = some j2 := hj2
        have hst2 : j2.state = j1.state := allowedStep_terminal hterm1 hall2
        have hr2 : j2.result = j1.result := hres2 hst2
        have hterm2 : isTerminal j2.state = true := by rw [hst2]; exact hterm1
        obtain ⟨j3, hj3, hst3, hr3⟩ := ih (finishJob solve s1 k).1 id j2 hj2' hterm2
        rw [hstep]
        exact ⟨j3, hj3, by rw [hst3, hst2, hst1], by rw [hr3, hr2, hr1]⟩

/-- The central drain lemma: if a job is Queued and sits in the queue, then
running the workers with enough fuel executes exactly its captured snapshot
and request, and stores the corresponding outcome in its result slot. -/
lemma drain_runs (solve : Nat → Nat → SolveRes) :
    ∀ (fuel : Nat) (s : Sys) (id : Nat) (j : Job),
      s.jobs[id]? = some j → j.state = .queued → id ∈ s.queue →
      s.queue.length ≤ fuel →
      ∃ j2, (drain solve fuel s).jobs[id]? = some j2 ∧
        j2.state = runOutcome (solve j.snapshot j.request) ∧
        j2.result = some (solve j.snapshot j.request) := by
  intro fuel
  induction fuel with
  | zero =>
    intro s id j hj hq hmem hlen
    rw [Nat.le_zero, List.length_eq_zero] at hlen
    rw [hlen] at hmem
    cases hmem
  | succ fuel ih =>
    intro s id j hj hq hmem hlen
    cases hfn : findNext s.jobs s.queue with
    | none =>
      exact absurd hq (findNext_none_spec s.jobs s.queue hfn id hmem j hj)
    | some t =>
      obtain ⟨k, jk, rest⟩ := t
      obtain ⟨hkj, hkq, pre, hpre, hallpre⟩ := findNext_some_spec s.jobs s.queue k jk rest hfn
      have hdq := dequeueNext_shape_some s k jk rest hfn
      have hstep : drain solve (fuel + 1) s =
          drain solve fuel (finishJob solve { s with jobs := s.jobs.set k { jk with state := JobState.running }, queue := rest } k).1 := by
        simp [drain, hdq]
      have hklt : k < s.jobs.length := (List.getElem?_eq_some.mp hkj).1
      have hlenrest : rest.length ≤ fuel := by
        have : s.queue.length = pre.length + (rest.length + 1) := by
          rw [hpre]; simp [List.length_append]
        omega
      by_cases hk : k = id
      · subst hk
        have hjk : jk = j := Option.some.inj (hkj.symm.trans hj)
        subst hjk
        have hj1 : ({ s with jobs := s.jobs.set k { jk with state := JobState.running }, queue := rest } : Sys).jobs[k]? = some { jk with state := JobState.running } :=
          getElem?_set_self_of_lt _ _ _ hklt
        have hfin := finishJob_shape_running solve
          { s with jobs := s.jobs.set k { jk with state := JobState.running }, queue := rest }
          k { jk with state := JobState.running } hj1 rfl
        have hj2 : (finishJob solve { s with jobs := s.jobs.set k { jk with state := JobState.running }, queue := rest } k).1.jobs[k]? =
            some { jk with state := runOutcome (solve jk.snapshot jk.request), result := some (solve jk.snapshot jk.request) } := by
          rw [hfin]
          show ((s.jobs.set k { jk with state := JobState.running }).set k _)[k]? = _
          have hklt2 : k < (s.jobs.set k { jk with state := JobState.running }).length := by
            simpa using hklt
          rw [getElem?_set_self_of_lt _ _ _ hklt2]
        obtain ⟨j3, hj3, hst3, hr3⟩ := drain_preserves_job solve fuel _ k _ hj2
          (isTerminal_runOutcome (solve jk.snapshot jk.request))
        rw [hstep]
        refine ⟨j3, hj3, ?_, ?_⟩
        · rw [hst3]
        · rw [hr3]
      · have hmemrest : id ∈ rest := by
          rw [hpre] at hmem
          rcases List.mem_append.mp hmem with h1 | h2
          · exact absurd hq (hallpre id h1 j hj)
          · rcases List.mem_cons.mp h2 with rfl | h3
            · exact absurd rfl hk
            · exact h3
        have hj1 : ({ s with jobs := s.jobs.set k { jk with state := JobState.running }, queue := rest } : Sys).jobs[id]? = some j := by
          show (s.jobs.set k _)[id]? = some j
          rw [List.getElem?_set_ne hk]
          exact hj
        have hkr : ({ s with jobs := s.jobs.set k { jk with state := JobState.running }, queue := rest } : Sys).jobs[k]? = some { jk with state := JobState.running } :=
          getElem?_set_self_of_lt _ _ _ hklt
        have hfin := finishJob_shape_running solve
          { s with jobs := s.jobs.set k { jk with state := JobState.running }, queue := rest }
          k { jk with state := JobState.running } hkr rfl
        have hj2 : (finishJob solve { s with jobs := s.jobs.set k { jk with state := JobState.running }, queue := rest } k).1.jobs[id]? = some j := by
          rw [hfin]
          show ((s.jobs.set k { jk with state := JobState.running }).set k _)[id]? = some j
          rw [List.getElem?_set_ne hk]
          rw [List.getElem?_set_ne hk]
          exact hj
        have hq2 : (finishJob solve { s with jobs := s.jobs.set k { jk with state := JobState.running }, queue := rest } k).1.queue = rest := by
          rw [hfin]
        obtain ⟨j2, hj2', hs2, hr2⟩ := ih _ id j hj2 hq (by rw [hq2]; exact hmemrest)
          (by rw [hq2]; exact hlenrest)
        rw [hstep]
        exact ⟨j2, hj2', hs2, hr2⟩

/-- `findNext` depends only on the jobs behind the queue entries. -/
lemma findNext_congr (jobs1 jobs2 : List Job) :
    ∀ q, (∀ x ∈ q, jobs1[x]? = jobs2[x]?) → findNext jobs1 q = findNext jobs2 q := by
  intro q
  induction q with
  | nil => intro _; rfl
  | cons a q ih =>
    intro h
    rw [findNext_cons, findNext_cons, h a (List.mem_cons_self a q)]
    cases hja : jobs2[a]? with
    | none =>
      simp only
      exact ih (fun x hx => h x (List.mem_cons_of_mem a hx))
    | some ja =>
      simp only
      by_cases hq : ja.state = .queued
      · rw [if_pos hq, if_pos hq]
      · rw [if_neg hq, if_neg hq]
        exact ih (fun x hx => h x (List.mem_cons_of_mem a hx))

/-- The order in which successive dequeues start jobs is exactly the queue
restricted to its still-Queued entries: submission order, canceled entries
skipped, the rest undisturbed. -/
lemma drainOrder_eq_filter :
    ∀ (fuel : Nat) (s : Sys), s.queue.Nodup → s.queue.length ≤ fuel →
      drainOrder s fuel = s.queue.filter (queuedIn s) := by
  intro fuel
  induction fuel with
  | zero =>
    intro s _ hlen
    rw [Nat.le_zero, List.length_eq_zero] at hlen
    rw [hlen]
    rfl
  | succ fuel ih =>
    intro s hnd hlen
    cases hfn : findNext s.jobs s.queue with
    | none =>
      have h1 : drainOrder s (fuel + 1) = [] := by
        simp [drainOrder, dequeueNext_shape_none s hfn]
      have h2 : s.queue.filter (queuedIn s) = [] := by
        rw [List.filter_eq_nil_iff]
        intro a ha
        have hns := findNext_none_spec s.jobs s.queue hfn a ha
        unfold queuedIn
        cases hja : s.jobs[a]? with
        | none => simp
        | some ja => simp [hns ja hja]
      rw [h1, h2]
    | some t =>
      obtain ⟨k, jk, rest⟩ := t
      obtain ⟨hkj, hkq, pre, hpre, hallpre⟩ := findNext_some_spec s.jobs s.queue k jk rest hfn
      have hdq := dequeueNext_shape_some s k jk rest hfn
      have h1 : drainOrder s (fuel + 1) =
          k :: drainOrder { s with jobs := s.jobs.set k { jk with state := JobState.running }, queue := rest } fuel := by
        simp [drainOrder, hdq]
      have hndrest : (k :: rest).Nodup := by
        rw [hpre] at hnd
        exact hnd.sublist (List.sublist_append_right pre (k :: rest))
      have hknotin : k ∉ rest := by
        intro hh
        exact (List.nodup_cons.mp hndrest).1 hh
      have hlenrest : rest.length ≤ fuel := by
        have : s.queue.length = pre.length + (rest.length + 1) := by
          rw [hpre]; simp [List.length_append]
        omega
      have hrec := ih { s with jobs := s.jobs.set k { jk with state := JobState.running }, queue := rest }
        (List.nodup_cons.mp hndrest).2 hlenrest
      have hcong : rest.filter
          (queuedIn { s with jobs := s.jobs.set k { jk with state := JobState.running }, queue := rest }) =
          rest.filter (queuedIn s) := by
        apply List.filter_congr
        intro x hx
        have hxk : x ≠ k := fun hh => hknotin (hh ▸ hx)
        unfold queuedIn
        show (match (s.jobs.set k _)[x]? with | some j => j.state == JobState.queued | none => false) = _
        rw [List.getElem?_set_ne (fun hh => hxk hh.symm)]
      have hkq' : queuedIn s k = true := by
        unfold queuedIn
        rw [hkj]
        simp [hkq]
      have hprefilter : pre.filter (queuedIn s) = [] := by
        rw [List.filter_eq_nil_iff]
        intro a ha
        have hns := hallpre a ha
        unfold queuedIn
        cases hja : s.jobs[a]? with
        | none => simp
        | some ja => simp [hns ja hja]
      rw [h1, hrec, hcong, hpre, List.filter_append, hprefilter]
      simp [List.filter_cons, hkq']

/-- Finishing a Running job stores the outcome of solving its snapshot and
request and moves it to the matching terminal state. -/
lemma finish_running_obs (solve : Nat → Nat → SolveRes) (s : Sys) (id : Nat)
    (j : Job) (hj : s.jobs[id]? = some j) (hr : j.state = .running) :
    obsAt (finishJob solve s id).1 id =
      some (runOutcome (solve j.snapshot j.request), some (solve j.snapshot j.request)) := by
  have hlt : id < s.jobs.length := (List.getElem?_eq_some.mp hj).1
  rw [finishJob_shape_running solve s id j hj hr]
  have h2 : (s.jobs.set id { j with state := runOutcome (solve j.snapshot j.request), result := some (solve j.snapshot j.request) })[id]? = some { j with state := runOutcome (solve j.snapshot j.request), result := some (solve j.snapshot j.request) } :=
    getElem?_set_self_of_lt _ _ _ hlt
  simp [obsAt, h2]

/-! ### The claims -/

/-- Claim C1: for every job canceled while still Queued, before any worker
dequeues it, the job transitions to Canceled, the solve function is never
invoked for it in any subsequent execution, and `get()` on its handle fails
with the canceled-access condition instead of returning a solve result. -/
theorem cancel_queued_never_runs (solve : Nat → Nat → SolveRes) (s : Sys)
    (id : Nat) (j : Job) (hj : s.jobs[id]? = some j) (hq : j.state = .queued) :
    obsAt (cancel s id) id = some (.canceled, j.result) ∧
    (∀ cs, Event.solveInvoked id ∉ (execList solve (cancel s id) cs).2) ∧
    (∀ cs, getJob (execList solve (cancel s id) cs).1 id = some .canceledAccess) := by
  have hlt : id < s.jobs.length := (List.getElem?_eq_some.mp hj).1
  have hcj : cancelJob j = { j with cancelFlag := true, state := .canceled } := by
    unfold cancelJob
    rw [if_pos hq]
  have hjc : (cancel s id).jobs[id]? = some { j with cancelFlag := true, state := .canceled } := by
    rw [cancel_shape_some s id j hj]
    show (s.jobs.set id (cancelJob j))[id]? = _
    rw [hcj]
    exact getElem?_set_self_of_lt _ _ _ hlt
  refine ⟨obsAt_eq _ _ _ hjc, ?_, ?_⟩
  · intro cs
    obtain ⟨j2, _, _, _, hterm⟩ := execList_job_evolution solve cs (cancel s id) id _ hjc
    exact (hterm rfl).2.2
  · intro cs
    obtain ⟨j2, hj2, _, _, hterm⟩ := execList_job_evolution solve cs (cancel s id) id _ hjc
    obtain ⟨hst, _, _⟩ := hterm rfl
    rw [getJob_eq_getOfObs, obsAt_eq _ _ _ hj2, hst]
    rfl

theorem cancel_queued_never_runs_witness :
    obsAt (cancel exSys 0) 0 = some (.canceled, none) ∧
    Event.solveInvoked 0 ∉ (execList exSolve (cancel exSys 0) [.dequeue, .finish 0]).2 ∧
    getJob (execList exSolve (cancel exSys 0) [.dequeue, .finish 0]).1 0 = some .canceledAccess := by
  obtain ⟨h1, h2, h3⟩ := cancel_queued_never_runs exSolve exSys 0 exJob rfl rfl
  exact ⟨h1, h2 _, h3 _⟩

/-- Claim C2: setting the cancellation flag of a job that is already Running
has no operational effect: the job is still Running afterwards, it still
transitions to Completed or Failed according to the solve outcome on its own
snapshot and request, and `get()` returns exactly what an uncanceled run
produces. -/
theorem cancel_running_advisory (solve : Nat → Nat → SolveRes) (s : Sys)
    (id : Nat) (j : Job) (hj : s.jobs[id]? = some j) (hr : j.state = .running) :
    obsAt (cancel s id) id = some (.running, j.result) ∧
    obsAt (finishJob solve (cancel s id) id).1 id =
      some (runOutcome (solve j.snapshot j.request), some (solve j.snapshot j.request)) ∧
    obsAt (finishJob solve s id).1 id =
      some (runOutcome (solve j.snapshot j.request), some (solve j.snapshot j.request)) ∧
    getJob (finishJob solve (cancel s id) id).1 id = getJob (finishJob solve s id).1 id := by
  have hlt : id < s.jobs.length := (List.getElem?_eq_some.mp hj).1
  have hnq : j.state ≠ .queued := by rw [hr]; simp
  have hcj : cancelJob j = { j with cancelFlag := true } := by
    unfold cancelJob
    rw [if_neg hnq]
  have hjc : (cancel s id).jobs[id]? = some { j with cancelFlag := true } := by
    rw [cancel_shape_some s id j hj]
    show (s.jobs.set id (cancelJob j))[id]? = _
    rw [hcj]
    exact getElem?_set_self_of_lt _ _ _ hlt
  have hobs1 : obsAt (cancel s id) id = some (.running, j.result) := by
    rw [obsAt_eq _ _ _ hjc]
    show some (j.state, j.result) = _
    rw [hr]
  have hobs2 := finish_running_obs solve (cancel s id) id { j with cancelFlag := true } hjc hr
  have hobs3 := finish_running_obs solve s id j hj hr
  refine ⟨hobs1, hobs2, hobs3, ?_⟩
  rw [getJob_eq_getOfObs, getJob_eq_getOfObs, hobs2, hobs3]

theorem cancel_running_advisory_witness :
    obsAt (cancel exSysRun 0) 0 = some (.running, none) ∧
    getJob (finishJob exSolve (cancel exSysRun 0) 0).1 0 =
      getJob (finishJob exSolve exSysRun 0).1 0 := by
  obtain ⟨h1, _, _, h4⟩ := cancel_running_advisory exSolve exSysRun 0 exRunJob rfl rfl
  exact ⟨h1, h4⟩

/-- Claim C3: `plan(env, request)` blocks until completion and returns the
same result as `submit(env, request)` followed by `get()` on the handle:
both equal the value produced by solving the captured snapshot of the live
document with the request. -/
theorem plan_equals_submit_get (solve : Nat → Nat → SolveRes) (s : Sys) (req : Nat) :
    (plan solve s req).1 = getJob (drainAll solve (submit s req).1) (submit s req).2 ∧
    (plan solve s req).1 = some (.value (solve s.liveDoc req)) ∧
    getJob (drainAll solve (submit s req).1) (submit s req).2 =
      some (.value (solve s.liveDoc req)) := by
  have hjnew : (submit s req).1.jobs[(submit s req).2]? =
      some { snapshot := s.liveDoc, request := req, state := .queued,
             cancelFlag := false, result := none } := submit_jobs_new s req
  have hmem : (submit s req).2 ∈ (submit s req).1.queue := by simp [submit]
  obtain ⟨j2, hj2, hst, hres⟩ := drain_runs solve ((submit s req).1.queue.length)
    (submit s req).1 (submit s req).2 _ hjnew rfl hmem (le_refl _)
  have hget : getJob (drainAll solve (submit s req).1) (submit s req).2 =
      some (.value (solve s.liveDoc req)) := by
    rw [getJob_eq_getOfObs]
    unfold drainAll
    rw [obsAt_eq _ _ _ hj2, hst, hres]
    exact getOfObs_terminal _
  exact ⟨rfl, hget, hget⟩

/-- Claim C4: a solve invocation that raises a fault is caught at the worker
boundary: the job becomes Failed carrying the fault, `get()` surfaces it as
a fault value, no other job and nothing else in the pool changes, and the
next dequeue still serves the remaining queued jobs exactly as before. -/
theorem solve_fault_contained (solve : Nat → Nat → SolveRes) (s : Sys)
    (id : Nat) (j : Job) (e : Nat)
    (hj : s.jobs[id]? = some j) (hr : j.state = .running) (hnq : id ∉ s.queue)
    (hf : solve j.snapshot j.request = .fault e) :
    (finishJob solve s id).1.jobs[id]? =
      some { j with state := .failed, result := some (.fault e) } ∧
    getJob (finishJob solve s id).1 id = some (.value (.fault e)) ∧
    (∀ k, k ≠ id → (finishJob solve s id).1.jobs[k]? = s.jobs[k]?) ∧
    (finishJob solve s id).1.queue = s.queue ∧
    (dequeueNext (finishJob solve s id).1).2 = (dequeueNext s).2 := by
  have hlt : id < s.jobs.length := (List.getElem?_eq_some.mp hj).1
  have hfin := finishJob_shape_running solve s id j hj hr
  have hrec : ({ j with state := runOutcome (solve j.snapshot j.request), result := some (solve j.snapshot j.request) } : Job) = { j with state := .failed, result := some (.fault e) } := by
    rw [hf]
    rfl
  have hjobs : (finishJob solve s id).1.jobs =
      s.jobs.set id { j with state := .failed, result := some (.fault e) } := by
    rw [hfin, hrec]
  have hpart1 : (finishJob solve s id).1.jobs[id]? =
      some { j with state := .failed, result := some (.fault e) } := by
    rw [hjobs]
    exact getElem?_set_self_of_lt _ _ _ hlt
  have hpart3 : ∀ k, k ≠ id → (finishJob solve s id).1.jobs[k]? = s.jobs[k]? := by
    intro k hk
    rw [hjobs]
    exact List.getElem?_set_ne (fun hh => hk hh.symm)
  have hpart4 : (finishJob solve s id).1.queue = s.queue := by rw [hfin]
  refine ⟨hpart1, ?_, hpart3, hpart4, ?_⟩
  · rw [getJob_eq_getOfObs, obsAt_eq _ _ _ hpart1]
    rfl
  · have hfneq : findNext (finishJob solve s id).1.jobs (finishJob solve s id).1.queue =
        findNext s.jobs s.queue := by
      rw [hpart4]
      apply findNext_congr
      intro x hx
      exact hpart3 x (fun hh => hnq (hh ▸ hx))
    unfold dequeueNext
    rw [hfneq]
    cases findNext s.jobs s.queue with
    | none => rfl
    | some t => obtain ⟨k, jk, rest⟩ := t; rfl

theorem solve_fault_contained_witness :
    getJob (finishJob exFaultSolve exSysRun 0).1 0 = some (.value (.fault 9)) ∧
    (dequeueNext (finishJob exFaultSolve exSysRun 0).1).2 = (dequeueNext exSysRun).2 := by
  obtain ⟨_, h2, _, _, h5⟩ :=
    solve_fault_contained exFaultSolve exSysRun 0 exRunJob 9 rfl rfl (by decide) rfl
  exact ⟨h2, h5⟩

/-- Claim C5: every command (submit, cancel, dequeue, worker completion,
live-document edit) moves every job's state only along the monotone
transition relation Queued to Running or Canceled, Running to Completed or
Failed, or leaves it unchanged; `wait` and `get` are pure observations and
change nothing by construction. -/
theorem state_transitions_monotone (solve : Nat → Nat → SolveRes) (s : Sys)
    (c : Cmd) (id : Nat) (j : Job) (hj : s.jobs[id]? = some j) :
    ∃ j2, (exec solve s c).1.jobs[id]? = some j2 ∧ allowedStep j.state j2.state := by
  obtain ⟨j2, hj2, _, _, hall, _, _⟩ := exec_job_evolution solve s c id j hj
  exact ⟨j2, hj2, hall⟩

theorem state_transitions_monotone_witness :
    ∃ j2, (exec exSolve exSys .dequeue).1.jobs[0]? = some j2 ∧
      allowedStep exJob.state j2.state :=
  state_transitions_monotone exSolve exSys .dequeue 0 exJob rfl

/-- Claim C6: jobs are dequeued strictly in submission order among entries
that are still Queued: the start order produced by successive dequeues is
the queue filtered to its still-Queued entries, so a Queued job submitted
earlier is started before a later one, and canceled entries are skipped
without disturbing the order of the rest. -/
theorem dequeue_in_submission_order (s : Sys) (fuel : Nat)
    (l1 : List Nat) (id1 : Nat) (l2 : List Nat) (id2 : Nat) (l3 : List Nat)
    (hq : s.queue = l1 ++ id1 :: l2 ++ id2 :: l3)
    (hnd : s.queue.Nodup) (hfuel : s.queue.length ≤ fuel)
    (h1 : queuedIn s id1 = true) (h2 : queuedIn s id2 = true) :
    drainOrder s fuel = s.queue.filter (queuedIn s) ∧
    ∃ a b, drainOrder s fuel = a ++ id1 :: b ∧ id2 ∈ b := by
  have hfo := drainOrder_eq_filter fuel s hnd hfuel
  refine ⟨hfo, l1.filter (queuedIn s), (l2 ++ id2 :: l3).filter (queuedIn s), ?_, ?_⟩
  · rw [hfo, hq]
    simp [List.filter_append, List.filter_cons, h1]
  · rw [List.mem_filter]
    exact ⟨by simp, h2⟩

theorem dequeue_in_submission_order_witness :
    drainOrder exSysThree 3 = exSysThree.queue.filter (queuedIn exSysThree) ∧
    ∃ a b, drainOrder exSysThree 3 = a ++ 0 :: b ∧ 2 ∈ b :=
  dequeue_in_submission_order exSysThree 3 [] 0 [1] 2 [] rfl (by decide) (by decide)
    (by decide) (by decide)

/-- Claim C7: `get()` on a terminal handle is idempotent across any further
activity: once a job is Completed or Failed (or Canceled), no later command
changes its state or its once-written result slot, so every later `get()`
returns the same value. -/
theorem get_idempotent_terminal (solve : Nat → Nat → SolveRes) (s : Sys)
    (id : Nat) (j : Job) (cs : List Cmd)
    (hj : s.jobs[id]? = some j) (ht : isTerminal j.state = true) :
    obsAt (execList solve s cs).1 id = obsAt s id ∧
    getJob (execList solve s cs).1 id = getJob s id := by
  obtain ⟨j2, hj2, _, _, hterm⟩ := execList_job_evolution solve cs s id j hj
  obtain ⟨hst, hres, _⟩ := hterm ht
  constructor
  · rw [obsAt_eq _ _ _ hj2, obsAt_eq _ _ _ hj, hst, hres]
  · rw [getJob_eq_getOfObs, getJob_eq_getOfObs, obsAt_eq _ _ _ hj2, obsAt_eq _ _ _ hj,
      hst, hres]

theorem get_idempotent_terminal_witness :
    obsAt (execList exSolve exSysDone [.cancel 0, .dequeue]).1 0 = obsAt exSysDone 0 ∧
    getJob (execList exSolve exSysDone [.cancel 0, .dequeue]).1 0 = getJob exSysDone 0 :=
  get_idempotent_terminal exSolve exSysDone 0 exDoneJob [.cancel 0, .dequeue] rfl rfl

/-- Claim C8: the snapshot captured by copy at submission time is never
mutated afterwards by any pool operation or worker, and snapshots taken
from the same live document at different times are independent: editing the
live document between two submissions leaves the first job's snapshot at
the old document value and gives the second job the new one. -/
theorem snapshot_immutable (solve : Nat → Nat → SolveRes) (s : Sys) :
    (∀ (cs : List Cmd) (id : Nat) (j : Job), s.jobs[id]? = some j →
      ∃ j2, (execList solve s cs).1.jobs[id]? = some j2 ∧
        j2.snapshot = j.snapshot ∧ j2.request = j.request) ∧
    (∀ r1 d r2,
      ((execList solve s [.submit r1, .setDoc d, .submit r2]).1.jobs[s.jobs.length]?).map
        Job.snapshot = some s.liveDoc ∧
      ((execList solve s [.submit r1, .setDoc d, .submit r2]).1.jobs[s.jobs.length + 1]?).map
        Job.snapshot = some d) := by
  constructor
  · intro cs id j hj
    obtain ⟨j2, hj2, hsnap, hreq, _⟩ := execList_job_evolution solve cs s id j hj
    exact ⟨j2, hj2, hsnap, hreq⟩
  · intro r1 d r2
    constructor
    · simp [execList, exec, submit, List.getElem?_append, List.getElem_append_right]
    · simp [execList, exec, submit, List.getElem?_append, List.getElem_append_right]

theorem snapshot_immutable_witness :
    (∃ j2, (execList exSolve exSys [.dequeue, .finish 0]).1.jobs[0]? = some j2 ∧
      j2.snapshot = exJob.snapshot ∧ j2.request = exJob.request) ∧
    ((execList exSolve exSys [.submit 1, .setDoc 9, .submit 2]).1.jobs[1]?).map
      Job.snapshot = some 5 := by
  refine ⟨(snapshot_immutable exSolve exSys).1 [.dequeue, .finish 0] 0 exJob rfl, ?_⟩
  have h := ((snapshot_immutable exSolve exSys).2 1 9 2).1
  simpa using h

/-- Claim C9: Scene YAML serialization round-trips: when `toYAMLFile`
succeeds, loading the produced file into any fresh scene succeeds and
yields a scene whose message equals the saved scene's message; both
operations report failure through their Bool return value. -/
theorem scene_yaml_roundtrip (s : Scene) (fs : FileStore) (file : String)
    (fs2 : FileStore) (h : s.toYAMLFile fs file = (true, fs2)) :
    ∀ s0 : Scene, (s0.fromYAMLFile fs2 file).1 = true ∧
      (s0.fromYAMLFile fs2 file).2.getMessage = s.getMessage := by
  have hfs2 : fs2 = (file, s.getMessage) :: fs := by
    have h2 := congrArg Prod.snd h
    simpa [Scene.toYAMLFile] using h2.symm
  subst hfs2
  intro s0
  unfold Scene.fromYAMLFile
  have hlook : List.lookup file ((file, s.getMessage) :: fs) = some s.getMessage := by
    simp [List.lookup]
  rw [hlook]
  exact ⟨rfl, rfl⟩

theorem scene_yaml_roundtrip_witness :
    ((exScene.fromYAMLFile (exScene.toYAMLFile [] "f").2 "f").1 = true ∧
     (exScene.fromYAMLFile (exScene.toYAMLFile [] "f").2 "f").2.getMessage =
       exScene.getMessage) :=
  scene_yaml_roundtrip exScene [] "f" (exScene.toYAMLFile [] "f").2 rfl exScene

/-- Claim C10: the single-argument `attachObject(name)` succeeds only when
the robot has exactly one end-effector, in which case it behaves as the
explicit attach to that end-effector's link with all its links as allowed
touch links; with zero or several end-effectors it returns false and leaves
the scene unchanged, never raising. -/
theorem attachObject_default_ee (s : Scene) (name : String) :
    ((s.attachObjectDefault name).1 = true → ∃ ee, s.robot.endEffectors = [ee]) ∧
    (∀ ee, s.robot.endEffectors = [ee] →
      s.attachObjectDefault name = s.attachObject name ee.tipLink ee.links) ∧
    (s.robot.endEffectors.length ≠ 1 → s.attachObjectDefault name = (false, s)) := by
  refine ⟨?_, ?_, ?_⟩
  · intro h
    unfold Scene.attachObjectDefault at h
    cases hee : s.robot.endEffectors with
    | nil => rw [hee] at h; simp at h
    | cons e rest =>
      cases rest with
      | nil => exact ⟨e, rfl⟩
      | cons e2 r2 => rw [hee] at h; simp at h
  · intro ee hee
    unfold Scene.attachObjectDefault
    rw [hee]
  · intro h
    unfold Scene.attachObjectDefault
    cases hee : s.robot.endEffectors with
    | nil => rfl
    | cons e rest =>
      cases rest with
      | nil => exact absurd (by rw [hee]; rfl) h
      | cons e2 r2 => rfl

theorem attachObject_default_ee_witness :
    (∃ ee, exScene.robot.endEffectors = [ee]) ∧
    exScene.attachObjectDefault "ball" =
      exScene.attachObject "ball" "ee_link" ["ee_link", "tool0"] ∧
    exSceneTwo.attachObjectDefault "ball" = (false, exSceneTwo) := by
  refine ⟨(attachObject_default_ee exScene "ball").1 (by decide), ?_,
    (attachObject_default_ee exSceneTwo "ball").2.2 (by decide)⟩
  exact (attachObject_default_ee exScene "ball").2.1
    { tipLink := "ee_link", links := ["ee_link", "tool0"] } rfl

end Robowflex
